import Mathlib

/-!
Verification development for the Phoenix pilot-job scraper (`scraper.py`).

The program pools job listings from four job-board adapters, filters them
against a keyword list, maintains a day-keyed rolling history persisted as
JSON, and renders an HTML report.

Modelling conventions:
* Python strings are `List Char` (`Str`); `str.lower()` is `pyLower`
  (ASCII case mapping, which covers every string the program manipulates);
  Python's substring test `k in s` is `substrB`.
* A Python `datetime.date` is its ordinal day number (`Nat`, as in
  `date.toordinal`); `date.isoformat()` / `fromisoformat` become the
  injective rendering `natDigits` / its inverse `parseNat` — the ISO text
  is an injective notation for the date and its lexicographic order agrees
  with date order, so the ordinal is a faithful stand-in for the day-key.
* A Python dict is an association list with (invariantly) no duplicate
  keys; insertion `d[k] = v` is `dictInsert` (replace in place, else
  append), and a dict comprehension filtering items is `List.filter`.
* Code that can raise returns `Except Unit _`.
-/

/-- Python strings, modelled as their character sequences. -/
abbrev Str := List Char

/-- ASCII lower-casing of one character, as `str.lower()` acts on the
ASCII range (all text constants in the program are ASCII). -/
def lowerChar (c : Char) : Char :=
  if 'A' ≤ c ∧ c ≤ 'Z' then Char.ofNat (c.toNat + 32) else c

/-- `str.lower()`. -/
def pyLower (s : Str) : Str := s.map lowerChar

/-- Python's substring containment `needle in hay`:
some suffix of `hay` starts with `needle`. -/
def substrB (needle hay : Str) : Bool :=
  hay.tails.any (fun t => needle.isPrefixOf t)

deriving instance DecidableEq for Except

/-- A normalized job record, as the dicts built by the adapters:
`{"title": .., "company": .., "link": .., "source": ..}`. -/
structure Listing where
  title : Str
  company : Str
  link : Str
  source : Str
deriving DecidableEq

/-- The module constant `KEYWORDS`. -/
def KEYWORDS : List Str :=
  ["caravan".toList, "pc-12".toList, "sky courier".toList,
   "cargo".toList, "part 135".toList]

/-- The module constant `DAYS_TO_KEEP`. -/
def DAYS_TO_KEEP : Nat := 30

/-- The sentinel company value used by the adapters. -/
def unknownStr : Str := "Unknown".toList

/-- `filter_jobs`: keeps, in order, the jobs whose lower-cased
`title + " " + company` contains some keyword (exact bytes of the
keyword, tested inside the lower-cased text). The keyword list is the
module-level `KEYWORDS` in the source; it is a parameter here so the
filter can be stated for arbitrary keyword sets. -/
def filter_jobs (keywords : List Str) : List Listing → List Listing
  | [] => []
  | j :: rest =>
    if keywords.any (fun k => substrB k (pyLower (j.title ++ " ".toList ++ j.company))) then
      j :: filter_jobs keywords rest
    else
      filter_jobs keywords rest

/-- From the spec's words (§4.2/§8): `k` is a *case-insensitive substring*
of a text — the lower-casing applies to both the keyword and the text. -/
def specCaseInsensitive (k text : Str) : Bool :=
  substrB (pyLower k) (pyLower text)

/-- From the spec's words: a Listing passes the filter iff some keyword is
a case-insensitive substring of `title + " " + company`. -/
def specFilterPass (keywords : List Str) (j : Listing) : Bool :=
  keywords.any (fun k => specCaseInsensitive k (j.title ++ " ".toList ++ j.company))

/-- The persisted history: day-key (date ordinal) ↦ that day's listings.
In the source it is a JSON-backed dict with ISO-date string keys. -/
abbrev History := List (Nat × List Listing)

/-- Python dict insertion `d[k] = v`: replace the binding in place when
the key is present, otherwise append at the end. -/
def dictInsert (k : Nat) (v : List Listing) : History → History
  | [] => [(k, v)]
  | (k', v') :: rest =>
    if k' = k then (k, v) :: rest else (k', v') :: dictInsert k v rest

/-- `update_history`: insert/overwrite today's snapshot, then keep only the
entries whose day is `≥ today - DAYS_TO_KEEP` (the dict comprehension
`{day: jobs ... if fromisoformat(day) >= cutoff}`). `today` and the
retention window are ambient values in the source (`date.today()`,
`DAYS_TO_KEEP`); they are parameters here. -/
def update_history (today : Nat) (today_jobs : List Listing)
    (daysToKeep : Nat) (history : History) : History :=
  let h1 := dictInsert today today_jobs history
  h1.filter (fun p => decide (today - daysToKeep ≤ p.1))

/-! ## Source adapters

Each adapter fetches a page (external collaborator `requests.get`; its
outcome is an argument of `main` below) and walks the selected elements.
An element is modelled by the pieces the adapter reads from it; a piece
that may be absent in the markup is an `Option`. An access that raises in
Python (`select_one(..).get_text()` on a missing node, `tag["href"]` on a
missing attribute) is `Except.error`. -/

/-- Adapter base URLs and source names from the source text. -/
def indeedBase : Str := "https://www.indeed.com".toList

/-- Base URL prepended to relative ZipRecruiter links. -/
def zipBase : Str := "https://www.ziprecruiter.com".toList

/-- Base URL prepended to Glassdoor `data-link` values. -/
def glassdoorBase : Str := "https://www.glassdoor.com".toList

/-- The PilotCareerCenter page URL, used as each of its listings' link. -/
def pccUrl : Str := "https://pilotcareercenter.com/PHOENIX-PILOT-JOBS/KIWA-KDVT-KPHX-KSDL".toList

/-- Source name constants. -/
def indeedName : Str := "Indeed".toList

/-- Source name for the ZipRecruiter adapter. -/
def zipName : Str := "ZipRecruiter".toList

/-- Source name for the PilotCareerCenter adapter. -/
def pccName : Str := "PilotCareerCenter".toList

/-- Source name for the Glassdoor adapter. -/
def glassdoorName : Str := "Glassdoor".toList

/-- Default title for a Glassdoor card with no `data-normalize-job-title`. -/
def pilotJobStr : Str := "Pilot Job".toList

/-- An Indeed `div.job_seen_beacon` card as `fetch_indeed` reads it:
the `h2` text, the `span.companyName` text, the first `a`'s `href`. -/
structure IndeedCard where
  h2 : Option Str
  companyName : Option Str
  aHref : Option Str
deriving DecidableEq

/-- `fetch_indeed`'s element loop. `card.select_one("h2").get_text(..)`
raises when there is no `h2`, and `card.select_one("a")["href"]` raises
when there is no anchor / no `href`; the company falls back to
`"Unknown"`. -/
def fetch_indeed : List IndeedCard → Except Unit (List Listing)
  | [] => Except.ok []
  | c :: cs =>
    match c.h2 with
    | none => Except.error ()
    | some t =>
      match c.aHref with
      | none => Except.error ()
      | some h =>
        match fetch_indeed cs with
        | Except.error e => Except.error e
        | Except.ok rest =>
          Except.ok ({ title := t, company := c.companyName.getD unknownStr,
                       link := indeedBase ++ h, source := indeedName } :: rest)

/-- A ZipRecruiter title anchor: its text and (optional) `href`. -/
structure ZipAnchor where
  text : Str
  href : Option Str
deriving DecidableEq

/-- A ZipRecruiter `article.job_content` card: optional title anchor and
optional `a.t_org_link` company text. -/
structure ZipCard where
  a : Option ZipAnchor
  tOrg : Option Str
deriving DecidableEq

/-- `fetch_zip`'s element loop. A card without a title anchor is skipped
(`if not title_tag: continue`); `title_tag["href"]` raises when the
anchor has no `href`; a relative link gets the base URL prepended;
the company falls back to `"Unknown"`. -/
def fetch_zip : List ZipCard → Except Unit (List Listing)
  | [] => Except.ok []
  | c :: cs =>
    match c.a with
    | none => fetch_zip cs
    | some tag =>
      match tag.href with
      | none => Except.error ()
      | some h =>
        match fetch_zip cs with
        | Except.error e => Except.error e
        | Except.ok rest =>
          Except.ok ({ title := tag.text, company := c.tOrg.getD unknownStr,
                       link := if "http".toList.isPrefixOf h then h else zipBase ++ h,
                       source := zipName } :: rest)

/-- `fetch_pilotcareercenter`'s row loop: a table row is its cells' texts;
a row with fewer than two cells is skipped, otherwise the first two cells
become title and company and the page URL is the link. Never fails. -/
def fetch_pilotcareercenter (url : Str) : List (List Str) → List Listing
  | [] => []
  | r :: rs =>
    if 2 ≤ r.length then
      { title := r.headD [], company := (r.drop 1).headD [],
        link := url, source := pccName } :: fetch_pilotcareercenter url rs
    else
      fetch_pilotcareercenter url rs

/-- A Glassdoor `li.react-job-listing` card: the three data attributes
`fetch_glassdoor` reads with `.get(..., default)`. -/
structure GlassdoorCard where
  dataTitle : Option Str
  dataCompany : Option Str
  dataLink : Option Str
deriving DecidableEq

/-- `fetch_glassdoor`'s element loop: every field is read with a default
(`"Pilot Job"`, `"Unknown"`, `""`), so every card yields a Listing and
the adapter never fails. -/
def fetch_glassdoor : List GlassdoorCard → List Listing
  | [] => []
  | c :: cs =>
    { title := c.dataTitle.getD pilotJobStr, company := c.dataCompany.getD unknownStr,
      link := glassdoorBase ++ c.dataLink.getD [], source := glassdoorName }
      :: fetch_glassdoor cs

/-! ## Persistence

`save_history` is `json.dump` of the history dict; `load_history` is
`json.load` of the file (or `{}` when the file does not exist). The file
and the `json` library are external collaborators; the durable content is
modelled as the JSON document itself (`Json` below), with `json.dump` /
`json.load` the identity on that document — their library contract.
`save_history` embeds the history into the document exactly as
`json.dump` serializes the dict; `load_history` reads the document back
as the history the program then uses. Day-keys are rendered with
`natDigits` (the injective decimal notation standing in for
`date.isoformat`) and recovered with `parseNat`. -/

/-- The digit character for `d < 10`. -/
def digitChar (d : Nat) : Char := Char.ofNat (48 + d)

/-- Decimal rendering of a day-key (stand-in for `date.isoformat()`,
which is likewise an injective textual notation for the date). -/
def natDigits (n : Nat) : Str :=
  if _h : n < 10 then [digitChar n]
  else natDigits (n / 10) ++ [digitChar (n % 10)]
termination_by n
decreasing_by exact Nat.div_lt_self (by omega) (by omega)

/-- The numeric value of a digit character, `none` on a non-digit. -/
def digitVal (c : Char) : Option Nat :=
  if '0' ≤ c ∧ c ≤ '9' then some (c.toNat - 48) else none

/-- Left-to-right decimal parse with an accumulator. -/
def parseNatAux : Str → Nat → Option Nat
  | [], acc => some acc
  | c :: cs, acc =>
    match digitVal c with
    | none => none
    | some d => parseNatAux cs (acc * 10 + d)

/-- Parse a day-key back from its rendering (stand-in for
`date.fromisoformat`). -/
def parseNat (s : Str) : Option Nat := parseNatAux s 0

/-- The JSON documents the history file can hold (the fragment the
program produces: strings, arrays, string-keyed objects). -/
inductive Json where
  | str : Str → Json
  | arr : List Json → Json
  | obj : List (Str × Json) → Json

/-- `Option`-valued map over a list, failing as soon as one element
fails. -/
def mapOpt (f : α → Option β) : List α → Option (List β)
  | [] => some []
  | a :: as =>
    match f a with
    | none => none
    | some b =>
      match mapOpt f as with
      | none => none
      | some bs => some (b :: bs)

/-- JSON object key for the title field. -/
def titleKey : Str := "title".toList

/-- JSON object key for the company field. -/
def companyKey : Str := "company".toList

/-- JSON object key for the link field. -/
def linkKey : Str := "link".toList

/-- JSON object key for the source field. -/
def sourceKey : Str := "source".toList

/-- How `json.dump` serializes one listing dict. -/
def encodeListing (l : Listing) : Json :=
  Json.obj [(titleKey, Json.str l.title), (companyKey, Json.str l.company),
            (linkKey, Json.str l.link), (sourceKey, Json.str l.source)]

/-- Reading one listing dict back from the document. -/
def decodeListing : Json → Option Listing
  | Json.obj ((k1, Json.str t) :: (k2, Json.str c) :: (k3, Json.str l)
      :: (k4, Json.str s) :: []) =>
    if k1 = titleKey ∧ k2 = companyKey ∧ k3 = linkKey ∧ k4 = sourceKey then
      some { title := t, company := c, link := l, source := s }
    else none
  | _ => none

/-- Reading one day's listing array back from the document. -/
def decodeListings : Json → Option (List Listing)
  | Json.arr js => mapOpt decodeListing js
  | _ => none

/-- Reading one `day-key ↦ listings` entry back from the document. -/
def decodeEntry : Str × Json → Option (Nat × List Listing)
  | (k, j) =>
    match parseNat k with
    | none => none
    | some n =>
      match decodeListings j with
      | none => none
      | some ls => some (n, ls)

/-- How `json.dump` serializes the whole history dict. -/
def encodeHistory (h : History) : Json :=
  Json.obj (h.map (fun p => (natDigits p.1, Json.arr (p.2.map encodeListing))))

/-- Reading the whole history back from the document. -/
def decodeHistory : Json → Option History
  | Json.obj entries => mapOpt decodeEntry entries
  | _ => none

/-- `save_history`: overwrite the durable file with the serialized
history. -/
def save_history (h : History) : Option Json := some (encodeHistory h)

/-- `load_history`: an absent file yields the empty history; otherwise the
stored document is read back (`none` when it is not a history-shaped
document). -/
def load_history : Option Json → Option History
  | none => some []
  | some j => decodeHistory j

/-! ## HTML report -/

/-- The observable structure of the document `generate_html` assembles:
the header date, today's section (with its "no new jobs" placeholder
flag), and the per-day history sections in the order they are emitted.
The literal HTML text around these is static plumbing. -/
structure RenderedDoc where
  headerDay : Nat
  todaySection : List Listing
  todayPlaceholder : Bool
  historySections : History
deriving DecidableEq

/-- The comparison `sorted(history.items(), reverse=True)` sorts on:
later day first. -/
def descKey (a b : Nat × List Listing) : Prop := b.1 ≤ a.1

instance : DecidableRel descKey := fun a b => Nat.decLe b.1 a.1

instance : IsTotal (Nat × List Listing) descKey := ⟨fun a b => Nat.le_total b.1 a.1⟩

instance : IsTrans (Nat × List Listing) descKey := ⟨fun _ _ _ h1 h2 => Nat.le_trans h2 h1⟩

/-- `sorted(history.items(), reverse=True)`: the history entries in
descending day order (dict keys are distinct, so the value components
never take part in the comparison). -/
def sortDescByDay (h : History) : History := List.insertionSort descKey h

/-- `generate_html`: the document built for today's listings and the
history — today's section first (placeholder item when empty), then one
section per history entry, in descending day order. -/
def generate_html (today : Nat) (today_jobs : List Listing) (history : History) :
    RenderedDoc :=
  { headerDay := today, todaySection := today_jobs,
    todayPlaceholder := today_jobs.isEmpty,
    historySections := sortDescByDay history }

/-! ## Orchestrator -/

/-- What a completed run produces: the pooled listings, today's filtered
listings, the history as persisted, the rendered document, and the
printed summary `(len(today_jobs), len(history))`. -/
structure MainResult where
  pooled : List Listing
  today_jobs : List Listing
  history : History
  doc : RenderedDoc
  summary : Nat × Nat
deriving DecidableEq

/-- The tail of a successful run, given the pooled listings: filter,
update/persist the history, render, summarize. -/
def runOutcome (today : Nat) (prior : History) (all_jobs : List Listing) : MainResult :=
  let today_jobs := filter_jobs KEYWORDS all_jobs
  let history := update_history today today_jobs DAYS_TO_KEEP prior
  { pooled := all_jobs, today_jobs := today_jobs, history := history,
    doc := generate_html today today_jobs history,
    summary := (today_jobs.length, history.length) }

namespace Scraper

/-- `main`: pools the four adapters in source order, then filters,
updates the history and renders. Each `rX` argument is the outcome of
that source's fetch+parse (`requests.get` plus soup selection, external
collaborators); an exception anywhere propagates, in program order.
`today` and the loaded prior history are the ambient `date.today()` and
`load_history()` values. -/
def main (today : Nat) (prior : History)
    (rIndeed : Except Unit (List IndeedCard)) (rZip : Except Unit (List ZipCard))
    (rPcc : Except Unit (List (List Str))) (rGd : Except Unit (List GlassdoorCard)) :
    Except Unit MainResult :=
  match rIndeed with
  | Except.error e => Except.error e
  | Except.ok cI =>
    match fetch_indeed cI with
    | Except.error e => Except.error e
    | Except.ok jI =>
      match rZip with
      | Except.error e => Except.error e
      | Except.ok cZ =>
        match fetch_zip cZ with
        | Except.error e => Except.error e
        | Except.ok jZ =>
          match rPcc with
          | Except.error e => Except.error e
          | Except.ok cP =>
            match rGd with
            | Except.error e => Except.error e
            | Except.ok cG =>
              Except.ok (runOutcome today prior
                (jI ++ jZ ++ fetch_pilotcareercenter pccUrl cP ++ fetch_glassdoor cG))

end Scraper

/-! ## Concrete fixtures -/

/-- A listing matching the configured keywords. -/
def sampleListing : Listing :=
  { title := "Caravan Pilot".toList, company := "AirCo".toList,
    link := "http://x".toList, source := indeedName }

/-- A well-formed Indeed card (title and link present, no company). -/
def goodIndeedCard : IndeedCard :=
  { h2 := some "Caravan Pilot".toList, companyName := none,
    aHref := some "/job1".toList }

/-- A history holding the 35 consecutive days before day 100. -/
def hist35 : History := (List.range 35).map (fun i => (65 + i, []))

/-- A Glassdoor card with no `data-company` attribute. -/
def gdCardNoCompany : GlassdoorCard :=
  { dataTitle := some "T".toList, dataCompany := none, dataLink := none }

/-! ## Helper lemmas -/

/-- `List.any` only depends on the predicate's values on the list. -/
theorem anyCongr {α : Type} {l : List α} {f g : α → Bool}
    (h : ∀ x ∈ l, f x = g x) : l.any f = l.any g := by
  induction l with
  | nil => rfl
  | cons a as ih =>
    simp only [List.any_cons, h a (by simp)]
    rw [ih (fun x hx => h x (by simp [hx]))]

/-- The inserted binding is always present after `dictInsert`. -/
theorem mem_dictInsert_self (k : Nat) (v : List Listing) (l : History) :
    (k, v) ∈ dictInsert k v l := by
  induction l with
  | nil => simp [dictInsert]
  | cons p rest ih =>
    obtain ⟨k', v'⟩ := p
    by_cases hk : k' = k
    · simp [dictInsert, hk]
    · simp only [dictInsert, if_neg hk]
      exact List.mem_cons_of_mem _ ih

/-- A binding under a different key survives `dictInsert`. -/
theorem mem_dictInsert_of_ne {k1 : Nat} {v1 : List Listing} {l : History}
    (k : Nat) (v : List Listing) (hne : k1 ≠ k) (hm : (k1, v1) ∈ l) :
    (k1, v1) ∈ dictInsert k v l := by
  induction l with
  | nil => cases hm
  | cons p rest ih =>
    obtain ⟨k', v'⟩ := p
    rcases List.mem_cons.mp hm with he | hrest
    · have hk : k' ≠ k := by
        intro e; apply hne
        have : k1 = k' := congrArg Prod.fst he
        omega
      simp only [dictInsert, if_neg hk]
      exact List.mem_cons.mpr (Or.inl he)
    · by_cases hk : k' = k
      · simp only [dictInsert, if_pos hk]
        exact List.mem_cons_of_mem _ hrest
      · simp only [dictInsert, if_neg hk]
        exact List.mem_cons_of_mem _ (ih hrest)

/-- Every binding after `dictInsert` is the inserted one or an original
one. -/
theorem mem_of_mem_dictInsert {a : Nat} {b : List Listing} {k : Nat}
    {v : List Listing} {l : History} (hm : (a, b) ∈ dictInsert k v l) :
    (a = k ∧ b = v) ∨ (a, b) ∈ l := by
  induction l with
  | nil =>
    simp only [dictInsert, List.mem_singleton] at hm
    exact Or.inl ⟨congrArg Prod.fst hm, congrArg Prod.snd hm⟩
  | cons p rest ih =>
    obtain ⟨k', v'⟩ := p
    by_cases hk : k' = k
    · simp only [dictInsert, if_pos hk] at hm
      rcases List.mem_cons.mp hm with he | hrest
      · exact Or.inl ⟨congrArg Prod.fst he, congrArg Prod.snd he⟩
      · exact Or.inr (List.mem_cons_of_mem _ hrest)
    · simp only [dictInsert, if_neg hk] at hm
      rcases List.mem_cons.mp hm with he | hrest
      · exact Or.inr (he ▸ List.mem_cons_self _ _)
      · rcases ih hrest with h1 | h2
        · exact Or.inl h1
        · exact Or.inr (List.mem_cons_of_mem _ h2)

/-- `dictInsert` preserves distinctness of the keys. -/
theorem keys_nodup_dictInsert (k : Nat) (v : List Listing) {l : History}
    (hnd : (l.map Prod.fst).Nodup) :
    ((dictInsert k v l).map Prod.fst).Nodup := by
  induction l with
  | nil => simp [dictInsert]
  | cons p rest ih =>
    obtain ⟨k', v'⟩ := p
    rw [List.map_cons, List.nodup_cons] at hnd
    by_cases hk : k' = k
    · simp only [dictInsert, if_pos hk, List.map_cons, List.nodup_cons]
      exact ⟨hk ▸ hnd.1, hnd.2⟩
    · simp only [dictInsert, if_neg hk, List.map_cons, List.nodup_cons]
      refine ⟨?_, ih hnd.2⟩
      intro hmem
      rcases List.mem_map.mp hmem with ⟨⟨a, b⟩, hab, he⟩
      rcases mem_of_mem_dictInsert hab with ⟨h1, _⟩ | h2
      · exact hk (he ▸ h1 ▸ rfl)
      · exact hnd.1 (he ▸ List.mem_map.mpr ⟨(a, b), h2, rfl⟩)

/-- With distinct keys, a key determines its value. -/
theorem value_unique_of_keys_nodup {l : History}
    (hnd : (l.map Prod.fst).Nodup) {k : Nat} {v1 v2 : List Listing}
    (h1 : (k, v1) ∈ l) (h2 : (k, v2) ∈ l) : v1 = v2 := by
  induction l with
  | nil => cases h1
  | cons p rest ih =>
    obtain ⟨k', v'⟩ := p
    rw [List.map_cons, List.nodup_cons] at hnd
    rcases List.mem_cons.mp h1 with e1 | m1
    · rcases List.mem_cons.mp h2 with e2 | m2
      · have he : (k, v1) = ((k, v2) : Nat × List Listing) := e1.trans e2.symm
        exact congrArg Prod.snd he
      · exfalso
        apply hnd.1
        have hk : k' = k := (congrArg Prod.fst e1).symm
        exact hk ▸ List.mem_map.mpr ⟨(k, v2), m2, rfl⟩
    · rcases List.mem_cons.mp h2 with e2 | m2
      · exfalso
        apply hnd.1
        have hk : k' = k := (congrArg Prod.fst e2).symm
        exact hk ▸ List.mem_map.mpr ⟨(k, v1), m1, rfl⟩
      · exact ih hnd.2 m1 m2

/-- Membership in the updated history, characterized. -/
theorem mem_update_history_iff {k : Nat} {v : List Listing}
    (t N : Nat) (jb : List Listing) (h : History) :
    (k, v) ∈ update_history t jb N h ↔
      (k, v) ∈ dictInsert t jb h ∧ t - N ≤ k := by
  simp [update_history, List.mem_filter]

/-- The freshly inserted snapshot survives the pruning. -/
theorem self_mem_update_history (t N : Nat) (jb : List Listing) (h : History) :
    (t, jb) ∈ update_history t jb N h :=
  (mem_update_history_iff t N jb h).mpr
    ⟨mem_dictInsert_self t jb h, Nat.sub_le t N⟩

/-- `update_history` preserves distinctness of the keys. -/
theorem keys_nodup_update_history (t N : Nat) (jb : List Listing) {h : History}
    (hnd : (h.map Prod.fst).Nodup) :
    ((update_history t jb N h).map Prod.fst).Nodup :=
  List.Nodup.sublist
    (List.Sublist.map Prod.fst (List.filter_sublist _))
    (keys_nodup_dictInsert t jb hnd)

/-- Decimal parsing distributes over appending, accumulator threaded. -/
theorem parseNatAux_append (s t : Str) (acc : Nat) :
    parseNatAux (s ++ t) acc =
      match parseNatAux s acc with
      | none => none
      | some m => parseNatAux t m := by
  induction s generalizing acc with
  | nil => simp [parseNatAux]
  | cons c cs ih =>
    cases hc : digitVal c with
    | none => simp [parseNatAux, hc]
    | some d => simp [parseNatAux, hc, ih]

/-- A digit character parses back to its digit. -/
theorem digitVal_digitChar (d : Nat) (hd : d < 10) :
    digitVal (digitChar d) = some d := by
  interval_cases d <;> decide

/-- The decimal rendering of a day-key parses back to it. -/
theorem parseNat_natDigits (n : Nat) : parseNat (natDigits n) = some n := by
  induction n using Nat.strong_induction_on with
  | _ n ih =>
    by_cases h : n < 10
    · rw [natDigits]
      simp [h, parseNat, parseNatAux, digitVal_digitChar n h]
    · rw [natDigits]
      simp only [h, dite_false]
      have h10 : n / 10 < n := Nat.div_lt_self (by omega) (by omega)
      have ihn := ih (n / 10) h10
      unfold parseNat at ihn ⊢
      rw [parseNatAux_append, ihn]
      simp [parseNatAux, digitVal_digitChar (n % 10) (Nat.mod_lt n (by omega))]
      omega

/-- One listing round-trips through the stored document. -/
theorem decodeListing_encodeListing (l : Listing) :
    decodeListing (encodeListing l) = some l := by
  simp [decodeListing, encodeListing]

/-- `mapOpt` inverts an element-wise embedding. -/
theorem mapOpt_map_eq {α β : Type} (f : β → Option α) (g : α → β) (l : List α)
    (h : ∀ a ∈ l, f (g a) = some a) : mapOpt f (l.map g) = some l := by
  induction l with
  | nil => rfl
  | cons a as ih =>
    simp only [List.map_cons, mapOpt, h a (by simp),
      ih (fun x hx => h x (by simp [hx]))]

/-- One history entry round-trips through the stored document. -/
theorem decodeEntry_encode (d : Nat) (ls : List Listing) :
    decodeEntry (natDigits d, Json.arr (ls.map encodeListing)) = some (d, ls) := by
  simp [decodeEntry, parseNat_natDigits, decodeListings,
    mapOpt_map_eq decodeListing encodeListing ls
      (fun a _ => decodeListing_encodeListing a)]

/-- A `≥`-sorted list of distinct naturals is strictly descending. -/
theorem pairwise_lt_of_ge_nodup {l : List Nat}
    (hge : l.Pairwise (fun a b => b ≤ a)) (hnd : l.Nodup) :
    l.Pairwise (fun a b => b < a) := by
  induction l with
  | nil => exact List.Pairwise.nil
  | cons a as ih =>
    rw [List.pairwise_cons] at hge ⊢
    rw [List.nodup_cons] at hnd
    refine ⟨fun b hb => lt_of_le_of_ne (hge.1 b hb) ?_, ih hge.2 hnd.2⟩
    intro e
    exact hnd.1 (e ▸ hb)

/-- `filter_jobs` with no keywords keeps nothing. -/
theorem filter_jobs_nil (jobs : List Listing) : filter_jobs [] jobs = [] := by
  induction jobs with
  | nil => rfl
  | cons j rest ih => simp [filter_jobs, ih]


/-! ## Claims -/

/-- C1 counterexample: with Indeed's fetch raising and the three other
sources succeeding (ZipRecruiter even with a matching listing), `main`
propagates the exception instead of completing — no pooled listings, no
persisted history, no summary. -/
theorem main_single_failure_aborts :
    Scraper.main 100 [] (Except.error ())
      (Except.ok [{ a := some { text := "Caravan Pilot".toList,
                                href := some "http://z".toList },
                    tOrg := some "AirCo".toList }])
      (Except.ok []) (Except.ok []) = Except.error () := rfl

/-- C1 (amended): a failing source aborts the whole run — `main` completes
only when all four adapters succeed, and then the pooled Listings are the
four adapters' outputs concatenated in source order. -/
theorem main_requires_all_sources (t : Nat) (p : History)
    (rI : Except Unit (List IndeedCard)) (rZ : Except Unit (List ZipCard))
    (rP : Except Unit (List (List Str))) (rG : Except Unit (List GlassdoorCard)) :
    ((∃ res, Scraper.main t p rI rZ rP rG = Except.ok res) →
      (∃ x, rI = Except.ok x) ∧ (∃ x, rZ = Except.ok x)
        ∧ (∃ x, rP = Except.ok x) ∧ (∃ x, rG = Except.ok x))
    ∧ (∀ cI cZ cP cG jI jZ,
        rI = Except.ok cI → rZ = Except.ok cZ → rP = Except.ok cP →
        rG = Except.ok cG → fetch_indeed cI = Except.ok jI →
        fetch_zip cZ = Except.ok jZ →
        Scraper.main t p rI rZ rP rG = Except.ok (runOutcome t p
          (jI ++ jZ ++ fetch_pilotcareercenter pccUrl cP ++ fetch_glassdoor cG))) := by
  constructor
  · rintro ⟨res, hres⟩
    cases rI with
    | error e => simp [Scraper.main] at hres
    | ok cI =>
      cases hfi : fetch_indeed cI with
      | error e => simp [Scraper.main, hfi] at hres
      | ok jI =>
        cases rZ with
        | error e => simp [Scraper.main, hfi] at hres
        | ok cZ =>
          cases hfz : fetch_zip cZ with
          | error e => simp [Scraper.main, hfi, hfz] at hres
          | ok jZ =>
            cases rP with
            | error e => simp [Scraper.main, hfi, hfz] at hres
            | ok cP =>
              cases rG with
              | error e => simp [Scraper.main, hfi, hfz] at hres
              | ok cG =>
                exact ⟨⟨cI, rfl⟩, ⟨cZ, rfl⟩, ⟨cP, rfl⟩, ⟨cG, rfl⟩⟩
  · intro cI cZ cP cG jI jZ hI hZ hP hG hfi hfz
    subst hI; subst hZ; subst hP; subst hG
    simp [Scraper.main, hfi, hfz]

/-- C1 witness: a run whose four adapters all succeed completes with the
concatenated pool. -/
theorem main_requires_all_sources_w :
    Scraper.main 7 [] (Except.ok [goodIndeedCard]) (Except.ok [])
      (Except.ok []) (Except.ok []) =
      Except.ok (runOutcome 7 []
        ([{ title := "Caravan Pilot".toList, company := unknownStr,
            link := indeedBase ++ "/job1".toList, source := indeedName }]
          ++ [] ++ fetch_pilotcareercenter pccUrl [] ++ fetch_glassdoor [])) :=
  (main_requires_all_sources 7 [] (Except.ok [goodIndeedCard]) (Except.ok [])
      (Except.ok []) (Except.ok [])).2 [goodIndeedCard] [] [] []
    [{ title := "Caravan Pilot".toList, company := unknownStr,
       link := indeedBase ++ "/job1".toList, source := indeedName }] []
    rfl rfl rfl rfl rfl rfl

/-- C2 counterexample: the filter is not case-insensitive on the keyword
side — the upper-case keyword "CARAVAN" is a case-insensitive substring of
`sampleListing`'s `title + " " + company`, yet the listing is rejected,
because the code lower-cases only the text, not the keyword. -/
theorem filter_jobs_not_case_insensitive :
    filter_jobs ["CARAVAN".toList] [sampleListing] = []
    ∧ specFilterPass ["CARAVAN".toList] sampleListing = true := by
  exact ⟨by decide, by decide⟩

/-- C2 (amended): for keyword sets whose members are already lower-case
(as every configured keyword is), the filter is exactly the
case-insensitive-substring filter of the spec: an order-preserving
subsequence keeping precisely the matching listings, and empty keyword
set keeps nothing. -/
theorem filter_jobs_lowercase_spec (K : List Str) (jobs : List Listing)
    (hK : ∀ k ∈ K, pyLower k = k) :
    filter_jobs K jobs = jobs.filter (specFilterPass K)
    ∧ (filter_jobs K jobs).Sublist jobs
    ∧ filter_jobs [] jobs = [] := by
  have heq : filter_jobs K jobs = jobs.filter (specFilterPass K) := by
    induction jobs with
    | nil => rfl
    | cons j rest ih =>
      have hpred : (K.any fun k =>
          substrB k (pyLower (j.title ++ " ".toList ++ j.company)))
          = specFilterPass K j := by
        apply anyCongr
        intro k hk
        unfold specCaseInsensitive
        rw [hK k hk]
      simp only [filter_jobs, List.filter_cons, hpred, ih]
  exact ⟨heq, heq ▸ List.filter_sublist jobs, filter_jobs_nil jobs⟩

/-- C2 witness: the lower-case keyword "caravan" behaves per the spec on a
concrete listing. -/
theorem filter_jobs_lowercase_spec_w :
    filter_jobs ["caravan".toList] [sampleListing] =
        List.filter (specFilterPass ["caravan".toList]) [sampleListing]
    ∧ (filter_jobs ["caravan".toList] [sampleListing]).Sublist [sampleListing]
    ∧ filter_jobs [] [sampleListing] = [] :=
  filter_jobs_lowercase_spec ["caravan".toList] [sampleListing] (by decide)

/-- C3 counterexample: a remaining key need not be within the retention
window of today — a key 100 days in the future of today survives the
update (the pruning only enforces the lower bound `>= cutoff`), yet it is
not at most today. -/
theorem update_history_keeps_future_key :
    (200, ([] : List Listing)) ∈ update_history 100 [sampleListing] 30 [(200, [])]
    ∧ ¬((200 : Nat) ≤ 100) := by decide

/-- C3 (amended): after `update(h, today, listings, N)`, every remaining
key is at least `today - N` (keys later than today, when present, are
retained too); every original entry with key in the window and distinct
from today is kept; today's snapshot is present; and nothing else appears
— so exactly the entries strictly older than `today - N` are pruned. -/
theorem update_history_retention (t N : Nat) (jobs : List Listing) (h : History) :
    (∀ k v, (k, v) ∈ update_history t jobs N h → t - N ≤ k)
    ∧ (∀ k v, (k, v) ∈ h → t - N ≤ k → k ≠ t → (k, v) ∈ update_history t jobs N h)
    ∧ (t, jobs) ∈ update_history t jobs N h
    ∧ (∀ k v, (k, v) ∈ update_history t jobs N h →
        (k = t ∧ v = jobs) ∨ (k, v) ∈ h) := by
  refine ⟨?_, ?_, self_mem_update_history t N jobs h, ?_⟩
  · intro k v hm
    exact ((mem_update_history_iff t N jobs h).mp hm).2
  · intro k v hm hle hne
    exact (mem_update_history_iff t N jobs h).mpr
      ⟨mem_dictInsert_of_ne t jobs hne hm, hle⟩
  · intro k v hm
    exact mem_of_mem_dictInsert ((mem_update_history_iff t N jobs h).mp hm).1

/-- C3 witness: an in-window entry survives a concrete update and the
fresh snapshot is present. -/
theorem update_history_retention_w :
    (8, ([] : List Listing)) ∈ update_history 10 [sampleListing] 3 [(8, []), (2, [])]
    ∧ (10, [sampleListing]) ∈ update_history 10 [sampleListing] 3 [(8, []), (2, [])] :=
  ⟨(update_history_retention 10 3 [sampleListing] [(8, []), (2, [])]).2.1
      8 [] (by decide) (by decide) (by decide),
   (update_history_retention 10 3 [sampleListing] [(8, []), (2, [])]).2.2.1⟩

/-- C4 counterexample: with keys for the 35 days before day 100 and
retention 30, the update leaves 31 keys, not 30 — day 70 (= today - 30)
survives the `>= cutoff` pruning, so the result is not "exactly the 30
most recent keys". -/
theorem update_history_scenario_31 :
    (update_history 100 [sampleListing] 30 hist35).length = 31
    ∧ ((70 : Nat), ([] : List Listing)) ∈
        update_history 100 [sampleListing] 30 hist35 := by decide

/-- C4 (amended): in that scenario exactly 31 keys remain — today's key
plus the 31 - 1 = 30 most recent past keys 70..99 (the key equal to
`today - 30` included). -/
theorem update_history_scenario_exact :
    update_history 100 [sampleListing] 30 hist35 =
      (List.range 30).map (fun i => (70 + i, [])) ++ [(100, [sampleListing])] := by
  decide

/-- C5 counterexample: an Indeed card with no extractable title is not
skipped — the whole adapter aborts, even though the remaining element is
perfectly normalizable on its own. -/
theorem fetch_indeed_aborts_on_malformed :
    fetch_indeed [{ h2 := none, companyName := none, aHref := none },
                  goodIndeedCard] = Except.error ()
    ∧ fetch_indeed [goodIndeedCard] = Except.ok
        [{ title := "Caravan Pilot".toList, company := unknownStr,
           link := indeedBase ++ "/job1".toList, source := indeedName }] :=
  ⟨rfl, rfl⟩

/-- C5 (amended): the skip-don't-abort policy holds only partially:
ZipRecruiter skips a card without a title anchor, PilotCareerCenter skips
a row with fewer than two cells, Glassdoor normalizes every card; but an
Indeed card missing its title node — or its link, title present — aborts
the whole adapter. -/
theorem adapter_malformed_policy :
    (∀ c cs, c.a = none → fetch_zip (c :: cs) = fetch_zip cs)
    ∧ (∀ url r rs, r.length < 2 →
        fetch_pilotcareercenter url (r :: rs) = fetch_pilotcareercenter url rs)
    ∧ (∀ cs, (fetch_glassdoor cs).length = cs.length)
    ∧ (∀ c cs, c.h2 = none → fetch_indeed (c :: cs) = Except.error ())
    ∧ (∀ c s cs, c.h2 = some s → c.aHref = none →
        fetch_indeed (c :: cs) = Except.error ()) := by
  refine ⟨?_, ?_, ?_, ?_, ?_⟩
  · intro c cs ha
    simp [fetch_zip, ha]
  · intro url r rs hr
    simp only [fetch_pilotcareercenter]
    rw [if_neg (by omega)]
  · intro cs
    induction cs with
    | nil => rfl
    | cons c cs ih => simp [fetch_glassdoor, ih]
  · intro c cs hh
    simp [fetch_indeed, hh]
  · intro c s cs hh hA
    simp [fetch_indeed, hh, hA]

/-- C5 witness: a concrete anchor-less ZipRecruiter card is skipped, and a
concrete title-less Indeed card aborts. -/
theorem adapter_malformed_policy_w :
    fetch_zip [{ a := none, tOrg := none },
               { a := some { text := "T".toList, href := some "http://z".toList },
                 tOrg := none }] =
      fetch_zip [{ a := some { text := "T".toList, href := some "http://z".toList },
                   tOrg := none }]
    ∧ fetch_indeed [{ h2 := none, companyName := none, aHref := some "/a".toList }]
        = Except.error () :=
  ⟨adapter_malformed_policy.1 _ _ rfl, adapter_malformed_policy.2.2.2.1 _ _ rfl⟩

/-- C6: saving any history (including the empty one) and loading it back
yields the same history — same day-keys, each mapped to the same ordered
listings with the same field values. -/
theorem load_save_roundtrip (h : History) :
    load_history (save_history h) = some h := by
  show decodeHistory (encodeHistory h) = some h
  simp only [encodeHistory, decodeHistory]
  exact mapOpt_map_eq decodeEntry _ h
    (fun p _ => by obtain ⟨d, ls⟩ := p; exact decodeEntry_encode d ls)

/-- C6 witness: a concrete one-day history round-trips. -/
theorem load_save_roundtrip_w :
    load_history (save_history [(100, [sampleListing])]) =
      some [(100, [sampleListing])] :=
  load_save_roundtrip [(100, [sampleListing])]

/-- C7: updating twice with the same day-key leaves exactly the second
listings under that key — the snapshot is overwritten, never
accumulated. -/
theorem update_history_overwrite (d N : Nat) (L1 L2 : List Listing) (h : History)
    (hnd : (h.map Prod.fst).Nodup) :
    (d, L2) ∈ update_history d L2 N (update_history d L1 N h)
    ∧ ∀ v, (d, v) ∈ update_history d L2 N (update_history d L1 N h) → v = L2 := by
  have hnd1 := keys_nodup_update_history d N L1 hnd
  have hnd2 := keys_nodup_update_history d N L2 hnd1
  refine ⟨self_mem_update_history _ _ _ _, ?_⟩
  intro v hv
  exact value_unique_of_keys_nodup hnd2 hv (self_mem_update_history _ _ _ _)

/-- C7 witness: a concrete double update on day 5 keeps only the second
snapshot. -/
theorem update_history_overwrite_w :
    (5, [sampleListing]) ∈
        update_history 5 [sampleListing] 30 (update_history 5 [] 30 [(3, [])])
    ∧ ∀ v, (5, v) ∈
        update_history 5 [sampleListing] 30 (update_history 5 [] 30 [(3, [])]) →
        v = [sampleListing] :=
  update_history_overwrite 5 30 [] [sampleListing] [(3, [])] (by decide)

/-- C8: whenever a source element yields a Listing but offers no company
node/attribute, the company is the sentinel "Unknown" — for Indeed
(missing `span.companyName`), ZipRecruiter (missing `a.t_org_link`) and
Glassdoor (missing `data-company`); PilotCareerCenter listings always
take their company from the row's second cell, so the missing-company
case does not arise there. -/
theorem company_defaults_unknown :
    (∀ c cs js, c.companyName = none → fetch_indeed (c :: cs) = Except.ok js →
      ∃ l tl, js = l :: tl ∧ l.company = unknownStr)
    ∧ (∀ c a cs js, c.a = some a → c.tOrg = none →
        fetch_zip (c :: cs) = Except.ok js →
        ∃ l tl, js = l :: tl ∧ l.company = unknownStr)
    ∧ (∀ c cs, c.dataCompany = none →
        ∃ l tl, fetch_glassdoor (c :: cs) = l :: tl ∧ l.company = unknownStr)
    ∧ (∀ url s c rest rs, fetch_pilotcareercenter url ((s :: c :: rest) :: rs) =
        { title := s, company := c, link := url, source := pccName }
          :: fetch_pilotcareercenter url rs) := by
  refine ⟨?_, ?_, ?_, ?_⟩
  · intro c cs js hc hok
    cases hh : c.h2 with
    | none => simp [fetch_indeed, hh] at hok
    | some s =>
      cases hA : c.aHref with
      | none => simp [fetch_indeed, hh, hA] at hok
      | some a =>
        cases hrest : fetch_indeed cs with
        | error e => simp [fetch_indeed, hh, hA, hrest] at hok
        | ok rest =>
          simp only [fetch_indeed, hh, hA, hrest, Except.ok.injEq] at hok
          refine ⟨_, _, hok.symm, ?_⟩
          simp [hc]
  · intro c a cs js ha ht hok
    cases hf : a.href with
    | none => simp [fetch_zip, ha, hf] at hok
    | some link =>
      cases hrest : fetch_zip cs with
      | error e => simp [fetch_zip, ha, hf, hrest] at hok
      | ok rest =>
        simp only [fetch_zip, ha, hf, hrest, Except.ok.injEq] at hok
        refine ⟨_, _, hok.symm, ?_⟩
        simp [ht]
  · intro c cs hdc
    refine ⟨_, _, rfl, ?_⟩
    simp [hdc]
  · intro url s c rest rs
    simp only [fetch_pilotcareercenter]
    rw [if_pos (by simp)]
    rfl

/-- C8 witness: a concrete Glassdoor card without `data-company` yields a
listing whose company is "Unknown". -/
theorem company_defaults_unknown_w :
    ∃ l tl, fetch_glassdoor [gdCardNoCompany] = l :: tl
      ∧ l.company = unknownStr :=
  company_defaults_unknown.2.2.1 gdCardNoCompany [] rfl

/-- C9: for a history with distinct day-keys (the dict invariant), the
rendered document's history sections are exactly the history's entries —
one section per day-key, carrying that day's retained listings — and
their keys appear in strictly descending (most-recent-first) order. -/
theorem generate_html_sections_desc (t : Nat) (tj : List Listing) (h : History)
    (hnd : (h.map Prod.fst).Nodup) :
    ((generate_html t tj h).historySections).Perm h
    ∧ (((generate_html t tj h).historySections).map Prod.fst).Pairwise
        (fun a b => b < a) := by
  have hperm : (sortDescByDay h).Perm h := List.perm_insertionSort descKey h
  have hsorted : List.Sorted descKey (sortDescByDay h) :=
    List.sorted_insertionSort descKey h
  have hnd2 : ((sortDescByDay h).map Prod.fst).Nodup :=
    ((hperm.map Prod.fst).nodup_iff).mpr hnd
  have hge : ((sortDescByDay h).map Prod.fst).Pairwise (fun a b => b ≤ a) :=
    List.pairwise_map.mpr hsorted
  exact ⟨hperm, pairwise_lt_of_ge_nodup hge hnd2⟩

/-- C9 witness: a concrete two-day history renders as a permutation of
itself with strictly descending section keys. -/
theorem generate_html_sections_desc_w :
    ((generate_html 5 [] [(1, []), (3, [])]).historySections).Perm
        [(1, []), (3, [])]
    ∧ (((generate_html 5 [] [(1, []), (3, [])]).historySections).map
        Prod.fst).Pairwise (fun a b => b < a) :=
  generate_html_sections_desc 5 [] [(1, []), (3, [])] (by decide)

/-- C10: for a history with distinct day-keys, the updated history always
contains the inserted day-key mapped exactly to today's listings — the
fresh snapshot is never pruned, for any retention window (including 0). -/
theorem update_history_inserted_key_kept (t N : Nat) (jobs : List Listing)
    (h : History) (hnd : (h.map Prod.fst).Nodup) :
    (t, jobs) ∈ update_history t jobs N h
    ∧ ∀ v, (t, v) ∈ update_history t jobs N h → v = jobs := by
  refine ⟨self_mem_update_history _ _ _ _, ?_⟩
  intro v hv
  exact value_unique_of_keys_nodup (keys_nodup_update_history t N jobs hnd)
    hv (self_mem_update_history _ _ _ _)

/-- C10 witness: with retention 0, the day-9 snapshot just inserted is
still present, and is the only binding of day 9. -/
theorem update_history_inserted_key_kept_w :
    (9, [sampleListing]) ∈ update_history 9 [sampleListing] 0 [(9, []), (4, [])]
    ∧ ∀ v, (9, v) ∈ update_history 9 [sampleListing] 0 [(9, []), (4, [])] →
        v = [sampleListing] :=
  update_history_inserted_key_kept 9 0 [sampleListing] [(9, []), (4, [])]
    (by decide)
